import Mathlib

/-!
# Verification of the `coercion` crate

A shallow embedding of the `coercion` Rust crate: in-place conversions
between types of the same size and alignment.  The crate exposes an
unchecked trait `Coerce` (owned-value reinterpretation via
`ManuallyDrop` + `transmute_copy`, and pointer reinterpretation) and a
safe trait `As` that delegates to `Coerce`; macro-generated impl tables
(`unsafe_impl_coerce!` in `coerce.rs`, `unsafe_impl_as!` in `as_.rs`)
declare the primitive relations, and generic impls lift them across
slices, boxes, `str`/`[u8]`, and `MaybeUninit`.

Values of sized types are modelled by their bit pattern, a list of
bytes (`List Nat`); memory is a function from addresses to bytes;
pointers are thin (one word) or fat (address + element count), the
latter matching the crate's internal `FatPtr` struct.  Layouts assume
the 64-bit target the crate is normally compiled for.
-/

set_option autoImplicit false
set_option maxRecDepth 10000

namespace Coercion

/-- `core::alloc::Layout`: size and alignment in bytes. -/
structure Layout where
  size : Nat
  align : Nat
deriving DecidableEq, Repr

/-- The sized primitive types appearing in the crate's impl tables
(`coerce.rs` `mod impls` and `as_.rs` `mod impls`). -/
inductive PrimTy
  | u8 | i8 | NonZeroU8 | NonZeroI8 | AtomicU8 | AtomicI8 | bool | AtomicBool
  | u16 | i16 | NonZeroU16 | NonZeroI16 | AtomicU16 | AtomicI16
  | u32 | i32 | NonZeroU32 | NonZeroI32 | AtomicU32 | AtomicI32
  | u64 | i64 | NonZeroU64 | NonZeroI64 | AtomicU64 | AtomicI64
  | u128 | i128 | NonZeroU128 | NonZeroI128
  | usize | isize | NonZeroUsize | NonZeroIsize | AtomicUsize | AtomicIsize
deriving DecidableEq, Repr

open PrimTy

/-- `size_of` for the primitive types, on a 64-bit target. -/
def sizeOf : PrimTy → Nat
  | u8 | i8 | NonZeroU8 | NonZeroI8 | AtomicU8 | AtomicI8 | PrimTy.bool | AtomicBool => 1
  | u16 | i16 | NonZeroU16 | NonZeroI16 | AtomicU16 | AtomicI16 => 2
  | u32 | i32 | NonZeroU32 | NonZeroI32 | AtomicU32 | AtomicI32 => 4
  | u64 | i64 | NonZeroU64 | NonZeroI64 | AtomicU64 | AtomicI64 => 8
  | u128 | i128 | NonZeroU128 | NonZeroI128 => 16
  | usize | isize | NonZeroUsize | NonZeroIsize | AtomicUsize | AtomicIsize => 8

/-- `align_of` for the primitive types, on a 64-bit target. -/
def alignOf : PrimTy → Nat
  | u8 | i8 | NonZeroU8 | NonZeroI8 | AtomicU8 | AtomicI8 | PrimTy.bool | AtomicBool => 1
  | u16 | i16 | NonZeroU16 | NonZeroI16 | AtomicU16 | AtomicI16 => 2
  | u32 | i32 | NonZeroU32 | NonZeroI32 | AtomicU32 | AtomicI32 => 4
  | u64 | i64 | NonZeroU64 | NonZeroI64 | AtomicU64 | AtomicI64 => 8
  | u128 | i128 | NonZeroU128 | NonZeroI128 => 16
  | usize | isize | NonZeroUsize | NonZeroIsize | AtomicUsize | AtomicIsize => 8

/-- `Layout::new::<T>()` for a primitive type. -/
def layoutOf (p : PrimTy) : Layout :=
  { size := sizeOf p, align := alignOf p }

/-- Expansion of `unsafe_impl_coerce! { t | u | rest... }` (`lib.rs`):
`t | u` declares `Coerce` in both directions; the variadic form then
declares `t` against every remaining type and recurses on `u | rest`,
producing every ordered pair of distinct types in the family. -/
def coercePairs : List PrimTy → List (PrimTy × PrimTy)
  | t :: u :: rest =>
      (t, u) :: (u, t) ::
        (rest.flatMap fun r => [(t, r), (r, t)]) ++ coercePairs (u :: rest)
  | _ => []

/-- The `Coerce` relations declared by `unsafe_impl_coerce!` in
`coerce.rs` `mod impls`: six families of same-width types. -/
def coerceTable : List (PrimTy × PrimTy) :=
  coercePairs [u8, i8, NonZeroU8, NonZeroI8, AtomicU8, AtomicI8, bool, AtomicBool] ++
  coercePairs [u16, i16, NonZeroU16, NonZeroI16, AtomicU16, AtomicI16] ++
  coercePairs [u32, i32, NonZeroU32, NonZeroI32, AtomicU32, AtomicI32] ++
  coercePairs [u64, i64, NonZeroU64, NonZeroI64, AtomicU64, AtomicI64] ++
  coercePairs [u128, i128, NonZeroU128, NonZeroI128] ++
  coercePairs [usize, isize, NonZeroUsize, NonZeroIsize, AtomicUsize, AtomicIsize]

/-- Expansion of the chain form `unsafe_impl_as! { a = b = c ... }`
(`lib.rs`): `a = b` declares `As` in both directions, then the chain
recurses on `b = c ...`, so only consecutive pairs are related. -/
def asChainPairs : List PrimTy → List (PrimTy × PrimTy)
  | a :: b :: rest => (a, b) :: (b, a) :: asChainPairs (b :: rest)
  | _ => []

/-- The `As` relations declared by `unsafe_impl_as!` in `as_.rs`
`mod impls`: bidirectional chains for same-width integer/atomic
families, and one-directional pairs for `bool => u8` and each
non-zero wrapper to its plain integer. -/
def asTable : List (PrimTy × PrimTy) :=
  asChainPairs [u8, i8, AtomicU8, AtomicI8] ++
  asChainPairs [u16, i16, AtomicU16, AtomicI16] ++
  asChainPairs [u32, i32, AtomicU32, AtomicI32] ++
  asChainPairs [u64, i64, AtomicU64, AtomicI64] ++
  asChainPairs [u128, i128] ++
  asChainPairs [usize, isize, AtomicUsize, AtomicIsize] ++
  [(bool, u8),
   (NonZeroU8, u8), (NonZeroU16, u16), (NonZeroU32, u32), (NonZeroU64, u64),
   (NonZeroU128, u128), (NonZeroUsize, usize),
   (NonZeroI8, i8), (NonZeroI16, i16), (NonZeroI32, i32), (NonZeroI64, i64),
   (NonZeroI128, i128), (NonZeroIsize, isize)]

/-- The bit pattern of a sized value: its bytes in memory order. -/
abbrev Bytes := List Nat

/-- `assert_eq!(layout_t, layout_u)` as performed by the crate's
`assert_layout_eq!` / `assert_ptr_layout_eq!` macros (`coerce.rs`):
a failing assertion is a panic, modelled as `Except.error`. -/
def assertLayoutEq (a b : Layout) : Except String Unit :=
  if a = b then .ok () else .error "assertion failed: layout_t == layout_u"

/-- `core::mem::transmute::<T, U>` on a bit pattern: the bits are
returned unchanged; a size mismatch is rejected (in Rust, at compile
time). -/
def transmute (t u : PrimTy) (v : Bytes) : Except String Bytes :=
  if sizeOf t = sizeOf u then .ok v
  else .error "cannot transmute between types of different sizes"

/-- The macro-generated `Coerce::coerce` for a sized primitive pair
(`lib.rs`, `unsafe_impl_coerce!`): `::core::mem::transmute(self)`. -/
def coercePrim (t u : PrimTy) (v : Bytes) : Except String Bytes :=
  transmute t u v

/-- `As::as_` (`as_.rs`): the default body is `unsafe { self.coerce() }`,
so for a sized primitive pair it delegates to the macro-generated
`coerce`. -/
def asPrim (t u : PrimTy) (v : Bytes) : Except String Bytes :=
  coercePrim t u v

/-- `core::mem::transmute_copy::<_, U>(&this)`: read `size_of::<U>()`
bytes from the source bit pattern (reading past the source is undefined
behaviour, modelled as an error). -/
def transmuteCopy (n : Nat) (v : Bytes) : Except String Bytes :=
  if n ≤ v.length then .ok (v.take n) else .error "transmute_copy read out of bounds"

/-- The pointer layout of a sized type: a thin one-word pointer
(`Layout::new::<*const T>()` on a 64-bit target). -/
def thinPtrLayout : Layout := { size := 8, align := 8 }

/-- The pointer layout of a slice or `str`: a two-word fat pointer. -/
def fatPtrLayout : Layout := { size := 16, align := 8 }

/-- The default `Coerce::coerce` body (`coerce.rs` lines 41–50) for a
sized primitive pair: assert the value layouts and the pointer layouts
are equal, wrap the source in `ManuallyDrop`, then `transmute_copy`
its bits into the destination. -/
def coerceDefault (t u : PrimTy) (v : Bytes) : Except String Bytes :=
  match assertLayoutEq (layoutOf t) (layoutOf u) with
  | .error e => .error e
  | .ok _ =>
    match assertLayoutEq thinPtrLayout thinPtrLayout with
    | .error e => .error e
    | .ok _ => transmuteCopy (sizeOf u) v

/-- The types over which the crate's generic impls are modelled:
sized primitives, `str`, slices of primitives, and `MaybeUninit` of
primitives. -/
inductive Ty
  | prim (p : PrimTy)
  | str
  | slice (p : PrimTy)
  | maybeUninit (p : PrimTy)
deriving DecidableEq, Repr

/-- The set of declared `Coerce` impls restricted to `Ty`
(`coerce.rs`): the macro table for primitives, `[T] → [U]` whenever
`T: Coerce<U>`, `str ↔ [u8]`, and `T ↔ MaybeUninit<T>`. -/
def coerceDecl : Ty → Ty → Bool
  | .prim t, .prim u => decide ((t, u) ∈ coerceTable)
  | .slice t, .slice u => decide ((t, u) ∈ coerceTable)
  | .str, .slice p => decide (p = u8)
  | .slice p, .str => decide (p = u8)
  | .prim t, .maybeUninit u => decide (t = u)
  | .maybeUninit t, .prim u => decide (t = u)
  | _, _ => false

/-- The set of declared `As` impls restricted to `Ty` (`as_.rs`): the
macro table for primitives, `[T] → [U]` whenever `T: As<U>`, and
`str → [u8]`.  No `As` impl mentions `MaybeUninit`. -/
def asDecl : Ty → Ty → Bool
  | .prim t, .prim u => decide ((t, u) ∈ asTable)
  | .slice t, .slice u => decide ((t, u) ∈ asTable)
  | .str, .slice p => decide (p = u8)
  | _, _ => false

/-- A raw pointer: thin (address) for sized types, fat (address and
element count) for slices and `str`. -/
inductive RawPtr
  | thin (addr : Nat)
  | fat (addr len : Nat)
deriving DecidableEq, Repr

/-- Which pointer shape a `Ty` uses. -/
def ptrLayoutOf : Ty → Layout
  | .prim _ => thinPtrLayout
  | .maybeUninit _ => thinPtrLayout
  | .slice _ => fatPtrLayout
  | .str => fatPtrLayout

/-- `Layout::new::<Box<T>>()`: a box is its (thin or fat) pointer. -/
def boxLayoutOf (t : Ty) : Layout := ptrLayoutOf t

/-- The crate's internal `#[repr(C)] struct FatPtr { ptr: usize, len: usize }`
(`coerce.rs` lines 68–72). -/
structure FatPtr where
  ptr : Nat
  len : Nat
deriving DecidableEq, Repr

/-- The body of the slice impl's `coerce_ptr` (`coerce.rs` lines 80–83):
transmute the fat pointer into a `FatPtr`, then transmute that back
into the destination fat pointer — both fields pass through unchanged. -/
def fatPtrRoundTrip (p : RawPtr) : Except String RawPtr :=
  match p with
  | .fat a n =>
      let repr : FatPtr := { ptr := a, len := n }
      .ok (.fat repr.ptr repr.len)
  | .thin _ => .error "not a fat pointer"

/-- `Coerce::coerce_ptr` across the declared impls on `Ty`
(`coerce.rs`): the macro impls cast the thin pointer unchanged; the
slice impl asserts `assert_layout_eq!(T, U)` and rebuilds the fat
pointer through `FatPtr`; the `str ↔ [u8]` impls transmute the fat
pointer unchanged; the `MaybeUninit` impls cast the thin pointer
unchanged.  An undeclared pair has no impl. -/
def coerce_ptr : Ty → Ty → RawPtr → Except String RawPtr
  | .prim t, .prim u, p =>
      if (t, u) ∈ coerceTable then .ok p else .error "no Coerce impl"
  | .slice t, .slice u, p =>
      if (t, u) ∈ coerceTable then
        match assertLayoutEq (layoutOf t) (layoutOf u) with
        | .error e => .error e
        | .ok _ => fatPtrRoundTrip p
      else .error "no Coerce impl"
  | .str, .slice q, p => if q = u8 then .ok p else .error "no Coerce impl"
  | .slice q, .str, p => if q = u8 then .ok p else .error "no Coerce impl"
  | .prim t, .maybeUninit q, p => if t = q then .ok p else .error "no Coerce impl"
  | .maybeUninit t, .prim q, p => if t = q then .ok p else .error "no Coerce impl"
  | _, _, _ => .error "no Coerce impl"

/-- The default `Coerce::coerce_mut_ptr` (`coerce.rs` lines 61–65):
assert the pointer layouts are equal, then delegate to `coerce_ptr`. -/
def coerce_mut_ptr (t v : Ty) (p : RawPtr) : Except String RawPtr :=
  match assertLayoutEq (ptrLayoutOf t) (ptrLayoutOf v) with
  | .error e => .error e
  | .ok _ => coerce_ptr t v p

/-- `Coerce::coerce` of `impl Coerce<Box<U>> for Box<T>` (`coerce.rs`
lines 91–99): assert the pointer layouts of `T`, `U` and the layouts of
`Box<T>`, `Box<U>` are equal; `Box::into_raw` the owned pointer, run
`T::coerce_mut_ptr` on it, and `Box::from_raw` the result. -/
def boxCoerce (t v : Ty) (b : RawPtr) : Except String RawPtr :=
  match assertLayoutEq (ptrLayoutOf t) (ptrLayoutOf v) with
  | .error e => .error e
  | .ok _ =>
    match assertLayoutEq (boxLayoutOf t) (boxLayoutOf v) with
    | .error e => .error e
    | .ok _ =>
      let t_ptr := b
      match coerce_mut_ptr t v t_ptr with
      | .error e => .error e
      | .ok u_ptr => .ok u_ptr

/-- Byte-addressed memory. -/
abbrev Mem := Nat → Nat

/-- Read `n` consecutive bytes starting at `addr`. -/
def readBytes (m : Mem) (addr n : Nat) : Bytes :=
  (List.range n).map fun i => m (addr + i)

/-- The bit pattern of element `i` of a slice of `t` whose data starts
at `addr`: elements are laid out contiguously with stride `size_of`. -/
def sliceElem (m : Mem) (t : PrimTy) (addr i : Nat) : Bytes :=
  readBytes m (addr + i * sizeOf t) (sizeOf t)

/-- A resource-owning value: its bit pattern is a handle on resource
number `resource` (for example a heap allocation), released exactly
once by the type's normal destructor. -/
structure ResVal where
  resource : Nat
deriving DecidableEq, Repr

/-- `core::mem::ManuallyDrop<A>`: a transparent wrapper whose drop glue
does not run the wrapped value's destructor. -/
structure ManuallyDropVal (A : Type) where
  value : A

/-- Normal destruction of a `ResVal`: the trace of released resource
ids is its single owned resource. -/
def dropResVal (v : ResVal) : List Nat := [v.resource]

/-- Drop glue of `ManuallyDrop` (Rust semantics): releases nothing. -/
def dropManuallyDrop (_ : ManuallyDropVal ResVal) : List Nat := []

/-- The body of the default `Coerce::coerce` (`coerce.rs` lines 47–49)
instantiated at a resource-owning source whose destination has an
equivalent owned-resource representation, together with the trace of
resources released while it runs: `let this = ManuallyDrop::new(self)`
moves the source into the wrapper, `mem::transmute_copy(&this)` copies
its bits into the result, and when `this` goes out of scope only
`ManuallyDrop`'s drop glue runs. -/
def coerceOwnedRes (v : ResVal) : ResVal × List Nat :=
  let this : ManuallyDropVal ResVal := { value := v }
  let r : ResVal := { resource := this.value.resource }
  (r, dropManuallyDrop this)

/-- Full lifecycle of an owned coercion: run `coerce`, then later the
destination value undergoes its own normal destruction. -/
def coerceThenDrop (v : ResVal) : List Nat :=
  let s := coerceOwnedRes v
  s.2 ++ dropResVal s.1

/-- Every pair in the `Coerce` table has equal size and alignment. -/
theorem coerceTable_layout_eq : ∀ q ∈ coerceTable, layoutOf q.1 = layoutOf q.2 := by
  decide

/-- Every pair in the `Coerce` table has equal size. -/
theorem coerceTable_size_eq {t v : PrimTy} (h : (t, v) ∈ coerceTable) :
    sizeOf t = sizeOf v :=
  congrArg Layout.size (coerceTable_layout_eq (t, v) h)

/-- The `Coerce` table is symmetric: the macro declares both directions. -/
theorem coerceTable_symm : ∀ q ∈ coerceTable, (q.2, q.1) ∈ coerceTable := by
  decide

/-- Every pair in the `As` table has equal size and alignment. -/
theorem asTable_layout_eq : ∀ q ∈ asTable, layoutOf q.1 = layoutOf q.2 := by
  decide

/-- Every declared `As` pair is also a declared `Coerce` pair (the
`As` trait has `Coerce` as supertrait). -/
theorem asTable_subset_coerceTable : ∀ q ∈ asTable, q ∈ coerceTable := by
  decide

/-- C1: for every declared sized coercion pair T → U, the unchecked
owned reinterpretation `Coerce::coerce` — both the macro-generated
`transmute` body and the default `ManuallyDrop` + `transmute_copy`
body — produces an owned value of U whose bit pattern is identical to
the source's bit pattern. -/
theorem C1_owned_coerce_preserves_bits (t v : PrimTy) (h : (t, v) ∈ coerceTable)
    (x : Bytes) (hx : x.length = sizeOf t) :
    coercePrim t v x = .ok x ∧ coerceDefault t v x = .ok x := by
  have hl := coerceTable_layout_eq (t, v) h
  have hs := coerceTable_size_eq h
  refine ⟨by simp [coercePrim, transmute, hs], ?_⟩
  simp [coerceDefault, assertLayoutEq, hl, transmuteCopy, ← hs, hx]

theorem C1_owned_coerce_preserves_bits_witness :
    coercePrim PrimTy.u8 PrimTy.i8 [42] = .ok [42] ∧
    coerceDefault PrimTy.u8 PrimTy.i8 [42] = .ok [42] :=
  C1_owned_coerce_preserves_bits PrimTy.u8 PrimTy.i8 (by decide) [42] (by decide)

/-- C2: for every element pair T → U with `Coerce` declared,
reinterpreting a slice of N elements of T as `[U]` yields the same fat
pointer — so exactly N elements in the same order — and the i-th
element of the result view is the independent per-element
reinterpretation of the i-th source element. -/
theorem C2_slice_coercion_elementwise (t v : PrimTy) (h : (t, v) ∈ coerceTable)
    (a n : Nat) (m : Mem) (i : Nat) (_hi : i < n) :
    coerce_ptr (.slice t) (.slice v) (.fat a n) = .ok (.fat a n) ∧
    coercePrim t v (sliceElem m t a i) = .ok (sliceElem m v a i) := by
  have hl := coerceTable_layout_eq (t, v) h
  have hs := coerceTable_size_eq h
  refine ⟨by simp [coerce_ptr, h, assertLayoutEq, hl, fatPtrRoundTrip], ?_⟩
  have he : sliceElem m t a i = sliceElem m v a i := by simp [sliceElem, hs]
  rw [he]
  simp [coercePrim, transmute, hs]

theorem C2_slice_coercion_elementwise_witness :
    coerce_ptr (.slice PrimTy.u8) (.slice PrimTy.i8) (.fat 100 4) = .ok (.fat 100 4) ∧
    coercePrim PrimTy.u8 PrimTy.i8 (sliceElem (fun b => b) PrimTy.u8 100 2) =
      .ok (sliceElem (fun b => b) PrimTy.i8 100 2) :=
  C2_slice_coercion_elementwise PrimTy.u8 PrimTy.i8 (by decide) 100 4 (fun b => b) 2
    (by decide)

/-- C3: the owned unchecked reinterpretation never runs the source's
normal destructor on the original bits — the `ManuallyDrop` wrapper
suppresses it before the byte copy — so a resource-owning source
coerced into a destination with an equivalent owned-resource
representation releases the underlying resource exactly once, when the
destination value is later destroyed. -/
theorem C3_coerce_suppresses_source_drop (x : ResVal) :
    (coerceOwnedRes x).2 = [] ∧ (coerceOwnedRes x).1 = x ∧
    (coerceThenDrop x).count x.resource = 1 := by
  refine ⟨rfl, rfl, ?_⟩
  simp [coerceThenDrop, coerceOwnedRes, dropManuallyDrop, dropResVal]

/-- C4: every declared capability pair T → U is also a declared
coercion pair, and the safe conversion `As::as_` returns exactly the
result of the unchecked owned reinterpretation `coerce` — the same
byte-level transfer, differing only in interface availability. -/
theorem C4_as_equals_coerce (t v : PrimTy) (h : (t, v) ∈ asTable) :
    (t, v) ∈ coerceTable ∧
    ∀ x : Bytes, asPrim t v x = coercePrim t v x ∧ asPrim t v x = .ok x := by
  refine ⟨asTable_subset_coerceTable (t, v) h, fun x => ⟨rfl, ?_⟩⟩
  have hs : sizeOf t = sizeOf v := congrArg Layout.size (asTable_layout_eq (t, v) h)
  simp [asPrim, coercePrim, transmute, hs]

theorem C4_as_equals_coerce_witness :
    (PrimTy.bool, PrimTy.u8) ∈ coerceTable ∧
    (asPrim PrimTy.bool PrimTy.u8 [1] = coercePrim PrimTy.bool PrimTy.u8 [1] ∧
     asPrim PrimTy.bool PrimTy.u8 [1] = .ok [1]) :=
  ⟨(C4_as_equals_coerce PrimTy.bool PrimTy.u8 (by decide)).1,
   (C4_as_equals_coerce PrimTy.bool PrimTy.u8 (by decide)).2 [1]⟩

/-- C5: every declared coercion relation is bidirectional, and coercing
an owned value T → U and then U → T yields a value bit-identical to
the original. -/
theorem C5_round_trip (t v : PrimTy) (h : (t, v) ∈ coerceTable) (x : Bytes) :
    (v, t) ∈ coerceTable ∧
    ∃ y, coercePrim t v x = .ok y ∧ coercePrim v t y = .ok x := by
  have hs := coerceTable_size_eq h
  exact ⟨coerceTable_symm (t, v) h, x, by simp [coercePrim, transmute, hs]⟩

theorem C5_round_trip_witness :
    (PrimTy.NonZeroU64, PrimTy.u64) ∈ coerceTable ∧
    ∃ y, coercePrim PrimTy.u64 PrimTy.NonZeroU64 [1, 0, 0, 0, 0, 0, 0, 0] = .ok y ∧
      coercePrim PrimTy.NonZeroU64 PrimTy.u64 y = .ok [1, 0, 0, 0, 0, 0, 0, 0] :=
  C5_round_trip PrimTy.u64 PrimTy.NonZeroU64 (by decide) [1, 0, 0, 0, 0, 0, 0, 0]

/-- C6: every coercion relation declared in the primitive equivalence
table — both the `Coerce` table and the `As` table — relates types of
equal size and equal alignment. -/
theorem C6_declared_relations_layout_eq :
    (∀ q ∈ coerceTable, layoutOf q.1 = layoutOf q.2) ∧
    (∀ q ∈ asTable, layoutOf q.1 = layoutOf q.2) :=
  ⟨coerceTable_layout_eq, asTable_layout_eq⟩

theorem C6_declared_relations_layout_eq_witness :
    layoutOf PrimTy.u8 = layoutOf PrimTy.i8 ∧
    layoutOf PrimTy.bool = layoutOf PrimTy.u8 :=
  ⟨C6_declared_relations_layout_eq.1 (PrimTy.u8, PrimTy.i8) (by decide),
   C6_declared_relations_layout_eq.2 (PrimTy.bool, PrimTy.u8) (by decide)⟩

/-- The one-directionally declared safe capabilities: `bool → u8`,
each non-zero wrapper → its plain integer counterpart, and
`str → [u8]`. -/
def oneWaySafePairs : List (Ty × Ty) :=
  [(.prim PrimTy.bool, .prim u8),
   (.prim NonZeroU8, .prim u8), (.prim NonZeroU16, .prim u16),
   (.prim NonZeroU32, .prim u32), (.prim NonZeroU64, .prim u64),
   (.prim NonZeroU128, .prim u128), (.prim NonZeroUsize, .prim usize),
   (.prim NonZeroI8, .prim i8), (.prim NonZeroI16, .prim i16),
   (.prim NonZeroI32, .prim i32), (.prim NonZeroI64, .prim i64),
   (.prim NonZeroI128, .prim i128), (.prim NonZeroIsize, .prim isize),
   (.str, .slice u8)]

/-- C7: for each one-directionally declared safe capability —
`bool → u8`, each non-zero wrapper → its plain integer, and
`str → [u8]` — the safe tier `As` is declared only in that direction
and not in the reverse, while the unchecked tier `Coerce` is declared
in both directions for the same pair. -/
theorem C7_one_way_safe_capabilities (q : Ty × Ty) (h : q ∈ oneWaySafePairs) :
    asDecl q.1 q.2 = true ∧ asDecl q.2 q.1 = false ∧
    coerceDecl q.1 q.2 = true ∧ coerceDecl q.2 q.1 = true := by
  revert h
  revert q
  decide

theorem C7_one_way_safe_capabilities_witness :
    asDecl .str (.slice PrimTy.u8) = true ∧
    asDecl (.slice PrimTy.u8) .str = false ∧
    coerceDecl .str (.slice PrimTy.u8) = true ∧
    coerceDecl (.slice PrimTy.u8) .str = true :=
  C7_one_way_safe_capabilities (.str, .slice PrimTy.u8) (by decide)

/-- C8 counterexample: wrapping a value into the uninitialized-memory
container does require the unchecked tier — at `T = u8` there is no
`As` impl for `u8 → MaybeUninit<u8>`; the wrap is declared only as a
`Coerce` impl. -/
theorem C8_wrap_needs_unchecked_tier :
    asDecl (.prim PrimTy.u8) (.maybeUninit PrimTy.u8) = false ∧
    coerceDecl (.prim PrimTy.u8) (.maybeUninit PrimTy.u8) = true := by
  decide

/-- C8 (amended): both wrapping (T → `MaybeUninit<T>`) and unwrapping
(`MaybeUninit<T>` → T) are exposed only via the unchecked tier — each
direction is declared as a `Coerce` impl and neither direction has a
safe `As` impl. -/
theorem C8_maybe_uninit_unchecked_only (p : PrimTy) :
    coerceDecl (.prim p) (.maybeUninit p) = true ∧
    coerceDecl (.maybeUninit p) (.prim p) = true ∧
    asDecl (.prim p) (.maybeUninit p) = false ∧
    asDecl (.maybeUninit p) (.prim p) = false := by
  refine ⟨by simp [coerceDecl], by simp [coerceDecl], by simp [asDecl], by simp [asDecl]⟩

/-- Which pointer shape a value of a given `Ty` is addressed through:
sized types use thin pointers, slices and `str` use fat pointers. -/
def shapeOk : Ty → RawPtr → Bool
  | .prim _, .thin _ => true
  | .maybeUninit _, .thin _ => true
  | .slice _, .fat _ _ => true
  | .str, .fat _ _ => true
  | _, _ => false

/-- C9: for every declared coercion pair, `Box<T> → Box<U>` releases
the raw pointer from the box, reinterprets it, and reconstructs
ownership around it, returning exactly the original pointer — the same
address and, for slices, the same element count — with no reallocation
and no element copy. -/
theorem C9_box_coerce_same_allocation (t v : Ty) (h : coerceDecl t v = true)
    (p : RawPtr) (hp : shapeOk t p = true) :
    boxCoerce t v p = .ok p := by
  cases t with
  | prim a =>
    cases v with
    | prim b =>
        have mem : (a, b) ∈ coerceTable := by simpa [coerceDecl] using h
        simp [boxCoerce, coerce_mut_ptr, coerce_ptr, assertLayoutEq, ptrLayoutOf,
          boxLayoutOf, mem]
    | maybeUninit b =>
        have hab : a = b := by simpa [coerceDecl] using h
        subst hab
        simp [boxCoerce, coerce_mut_ptr, coerce_ptr, assertLayoutEq, ptrLayoutOf,
          boxLayoutOf]
    | str => simp [coerceDecl] at h
    | slice b => simp [coerceDecl] at h
  | str =>
    cases v with
    | slice b =>
        have hb : b = u8 := by simpa [coerceDecl] using h
        subst hb
        simp [boxCoerce, coerce_mut_ptr, coerce_ptr, assertLayoutEq, ptrLayoutOf,
          boxLayoutOf]
    | prim b => simp [coerceDecl] at h
    | str => simp [coerceDecl] at h
    | maybeUninit b => simp [coerceDecl] at h
  | slice a =>
    cases v with
    | slice b =>
        have mem : (a, b) ∈ coerceTable := by simpa [coerceDecl] using h
        have hl := coerceTable_layout_eq (a, b) mem
        cases p with
        | thin addr => simp [shapeOk] at hp
        | fat addr n =>
            simp [boxCoerce, coerce_mut_ptr, coerce_ptr, assertLayoutEq, ptrLayoutOf,
              boxLayoutOf, mem, hl, fatPtrRoundTrip]
    | str =>
        have ha : a = u8 := by simpa [coerceDecl] using h
        subst ha
        simp [boxCoerce, coerce_mut_ptr, coerce_ptr, assertLayoutEq, ptrLayoutOf,
          boxLayoutOf]
    | prim b => simp [coerceDecl] at h
    | maybeUninit b => simp [coerceDecl] at h
  | maybeUninit a =>
    cases v with
    | prim b =>
        have hab : a = b := by simpa [coerceDecl] using h
        subst hab
        simp [boxCoerce, coerce_mut_ptr, coerce_ptr, assertLayoutEq, ptrLayoutOf,
          boxLayoutOf]
    | str => simp [coerceDecl] at h
    | slice b => simp [coerceDecl] at h
    | maybeUninit b => simp [coerceDecl] at h

theorem C9_box_coerce_same_allocation_witness :
    boxCoerce (.prim PrimTy.u64) (.prim PrimTy.NonZeroU64) (.thin 4096) =
      .ok (.thin 4096) :=
  C9_box_coerce_same_allocation (.prim PrimTy.u64) (.prim PrimTy.NonZeroU64)
    (by decide) (.thin 4096) (by decide)

/-- C10: for every element pair T → U declared in the primitive table,
slice pointer reinterpretation `[T] → [U]` is panic-free: its internal
layout assertion comparing the layouts of T and U never fails, so the
operation always succeeds. -/
theorem C10_slice_coerce_ptr_no_panic (t v : PrimTy) (h : (t, v) ∈ coerceTable)
    (a n : Nat) :
    ∃ r, coerce_ptr (.slice t) (.slice v) (.fat a n) = .ok r := by
  have hl := coerceTable_layout_eq (t, v) h
  exact ⟨.fat a n, by simp [coerce_ptr, h, assertLayoutEq, hl, fatPtrRoundTrip]⟩

theorem C10_slice_coerce_ptr_no_panic_witness :
    ∃ r, coerce_ptr (.slice PrimTy.u16) (.slice PrimTy.AtomicI16) (.fat 0 3) = .ok r :=
  C10_slice_coerce_ptr_no_panic PrimTy.u16 PrimTy.AtomicI16 (by decide) 0 3

end Coercion
